import Mathlib

/-!
Verification development for the distributed processing core of pyasdf
(files `pyasdf/utils.py` and `pyasdf/asdf_data_set.py`).

The embedding translates the Python classes and functions into Lean:

* `JobQueueHelper` and its methods mirror `pyasdf/utils.py` lines 270-374.
  Python `Job` objects are mutable and compared by identity; the embedding
  gives each job a numeric `id` (its index in the initial job list) so that
  object identity becomes decidable equality on `id`.
* Fallible Python methods (methods that can raise `IndexError`, `KeyError`
  or `ValueError`) become functions into `Except String _`; an `Except.error`
  result corresponds to the Python method raising before any mutation of the
  (immutable, explicitly threaded) state became visible, which matches the
  Python code because every `raise` in the translated methods happens before
  the first mutation.
* The waveform group of the HDF5 file is modelled as an association list
  from station name to the list of child dataset names; this is the level
  (the metadata tree of groups and datasets) at which all the claims speak.
-/

namespace Pyasdf

/-! ## Jobs and workers (`pyasdf/utils.py`, lines 25-28 and 270-279) -/

/-- `Job` from `utils.py`: an `arguments` payload with an optional `result`
slot (`result=None` at construction).  The extra `id` field models Python
object identity: jobs are created once, in `JobQueueHelper.__init__`, from
the initial job list, and `id` is the index in that list. -/
structure Job (α ρ : Type) where
  id : Nat
  arguments : α
  result : Option ρ
deriving DecidableEq

/-- The `Worker` named tuple from `utils.py`: a list of active jobs and a
completed-jobs counter (the Python code stores the counter in a one-element
list so it can be mutated; here it is a plain `Nat`). -/
structure Worker (α ρ : Type) where
  active_jobs : List (Job α ρ)
  completed_jobs_count : Nat
deriving DecidableEq

/-- State of the Python `JobQueueHelper` class: `_all_jobs`, `_in_queue`,
`_finished_jobs`, `_poison_pills_received` and the `_workers` dict (modelled
as an association list from worker name to `Worker` record; the wall-clock
`_starttime` field is used only for logging and is omitted). -/
structure JobQueueHelper (α ρ : Type) where
  all_jobs : List (Job α ρ)
  in_queue : List (Job α ρ)
  finished_jobs : List (Job α ρ)
  poison_pills_received : Nat
  workers : List (Nat × Worker α ρ)
deriving DecidableEq

/-- Keys of a Python dict built by a comprehension over a list: duplicates
collapse, the first occurrence fixing the position. -/
def pyDictKeys : List Nat → List Nat
  | [] => []
  | n :: rest => n :: (pyDictKeys rest).filter (fun m => m ≠ n)

/-- `JobQueueHelper.__init__(jobs, worker_names)`: every argument becomes a
fresh `Job`, the queue starts as a copy of the full job list, no job is
finished, no poison pill received, and every worker name maps to an empty
worker record. -/
def JobQueueHelper.init (jobs : List α) (worker_names : List Nat) :
    JobQueueHelper α ρ :=
  let all := jobs.enum.map (fun p => Job.mk p.1 p.2 none)
  { all_jobs := all
    in_queue := all
    finished_jobs := []
    poison_pills_received := 0
    workers := (pyDictKeys worker_names).map (fun n => (n, Worker.mk [] 0)) }

/-- Assignment `self._workers[name] = w` on the dict modelled as an
association list: every entry with key `name` is replaced (keys are unique
after `pyDictKeys`, so exactly one entry changes). -/
def updateWorker (ws : List (Nat × Worker α ρ)) (name : Nat) (w : Worker α ρ) :
    List (Nat × Worker α ρ) :=
  ws.map (fun p => if p.1 = name then (name, w) else p)

/-- `JobQueueHelper.poison_pill_received`: increments the counter. -/
def JobQueueHelper.poison_pill_received (s : JobQueueHelper α ρ) :
    JobQueueHelper α ρ :=
  { s with poison_pills_received := s.poison_pills_received + 1 }

/-- `JobQueueHelper.get_job_for_worker`: `self._in_queue.pop(0)` raises
`IndexError` on the empty queue; otherwise the head job is removed, appended
to the worker's active jobs, and its arguments returned.  An unknown worker
name raises `KeyError` (in Python the failing dict access happens after the
`pop`, but no state change is observable once the exception propagates out
of the scheduler, so the error branch carries no state here). -/
def JobQueueHelper.get_job_for_worker (s : JobQueueHelper α ρ)
    (worker_name : Nat) : Except String (α × JobQueueHelper α ρ) :=
  match s.in_queue with
  | [] => Except.error "IndexError: pop from empty list"
  | job :: rest =>
    match s.workers.lookup worker_name with
    | none => Except.error "KeyError"
    | some w =>
      Except.ok (job.arguments,
        { s with
            in_queue := rest
            workers := updateWorker s.workers worker_name
              { w with active_jobs := w.active_jobs ++ [job] } })

/-- `JobQueueHelper.received_job_from_worker`: filters the worker's active
jobs by argument equality; zero matches raise `ValueError` ("Job ... not
found"), more than one match raises `ValueError` ("WTF ..."); the unique
match gets its result slot set, is removed from the active list, the
worker's completed count is incremented, and the job is appended to the
finished list. -/
def JobQueueHelper.received_job_from_worker [DecidableEq α] [DecidableEq ρ]
    (s : JobQueueHelper α ρ) (arguments : α) (result : ρ) (worker_name : Nat) :
    Except String (JobQueueHelper α ρ) :=
  match s.workers.lookup worker_name with
  | none => Except.error "KeyError"
  | some w =>
    match w.active_jobs.filter (fun j => decide (j.arguments = arguments)) with
    | [] => Except.error "MASTER: Job not found."
    | [job] =>
      Except.ok
        { s with
            workers := updateWorker s.workers worker_name
              { active_jobs := w.active_jobs.erase job
                completed_jobs_count := w.completed_jobs_count + 1 }
            finished_jobs := s.finished_jobs ++ [{ job with result := some result }] }
    | _ => Except.error "WTF: more than one matching active job"

/-- Property `queue_empty`. -/
def JobQueueHelper.queue_empty (s : JobQueueHelper α ρ) : Bool :=
  s.in_queue.isEmpty

/-- Property `finished`. -/
def JobQueueHelper.finishedCount (s : JobQueueHelper α ρ) : Nat :=
  s.finished_jobs.length

/-- Property `all_done`: `len(self._all_jobs) == len(self._finished_jobs)`. -/
def JobQueueHelper.all_done (s : JobQueueHelper α ρ) : Bool :=
  decide (s.all_jobs.length = s.finished_jobs.length)

/-- Property `all_poison_pills_received`:
`len(self._workers) == self._poison_pills_received`. -/
def JobQueueHelper.all_poison_pills_received (s : JobQueueHelper α ρ) : Bool :=
  decide (s.workers.length = s.poison_pills_received)

/-- A run of poison-pill acknowledgements: each element of `acks` names the
worker whose `POISON_PILL_RECEIVED` message made the master call
`jobs.poison_pill_received()` (the method itself ignores the name). -/
def applyAcks (s : JobQueueHelper α ρ) (acks : List Nat) : JobQueueHelper α ρ :=
  acks.foldl (fun st _ => st.poison_pill_received) s

/-! ## Lemmas about `pyDictKeys`, `applyAcks` and `init` -/

theorem mem_pyDictKeys {l : List Nat} {n : Nat} : n ∈ pyDictKeys l ↔ n ∈ l := by
  induction l with
  | nil => simp [pyDictKeys]
  | cons m rest ih =>
    simp only [pyDictKeys, List.mem_cons, List.mem_filter]
    constructor
    · rintro (rfl | ⟨h, -⟩)
      · exact Or.inl rfl
      · exact Or.inr (ih.mp h)
    · rintro (rfl | h)
      · exact Or.inl rfl
      · by_cases hn : n = m
        · exact Or.inl hn
        · exact Or.inr ⟨ih.mpr h, by simpa using hn⟩

theorem pyDictKeys_nodup (l : List Nat) : (pyDictKeys l).Nodup := by
  induction l with
  | nil => simp [pyDictKeys]
  | cons m rest ih =>
    simp only [pyDictKeys]
    rw [List.nodup_cons]
    refine ⟨?_, ih.filter _⟩
    intro hmem
    rw [List.mem_filter] at hmem
    simpa using hmem.2

theorem pyDictKeys_eq_self {l : List Nat} (h : l.Nodup) : pyDictKeys l = l := by
  induction l with
  | nil => rfl
  | cons m rest ih =>
    rw [List.nodup_cons] at h
    simp only [pyDictKeys, ih h.2]
    congr 1
    apply List.filter_eq_self.mpr
    intro a ha
    simp only [decide_eq_true_iff]
    rintro rfl
    exact h.1 ha

theorem applyAcks_workers (s : JobQueueHelper α ρ) (acks : List Nat) :
    (applyAcks s acks).workers = s.workers := by
  induction acks generalizing s with
  | nil => rfl
  | cons a rest ih =>
    simp only [applyAcks, List.foldl_cons] at *
    rw [ih]
    rfl

theorem applyAcks_pills (s : JobQueueHelper α ρ) (acks : List Nat) :
    (applyAcks s acks).poison_pills_received =
      s.poison_pills_received + acks.length := by
  induction acks generalizing s with
  | nil => simp [applyAcks]
  | cons a rest ih =>
    simp only [applyAcks, List.foldl_cons] at *
    rw [ih]
    simp only [JobQueueHelper.poison_pill_received, List.length_cons]
    omega

theorem init_workers_length (jobs : List α) (names : List Nat) :
    (JobQueueHelper.init (ρ := ρ) jobs names).workers.length =
      (pyDictKeys names).length := by
  simp [JobQueueHelper.init]

/-- For duplicate-free lists relating by inclusion, equal length is the same
as mutual inclusion. -/
theorem nodup_length_eq_iff {names acks : List Nat} (hnames : names.Nodup)
    (hacks : acks.Nodup) (hsub : acks ⊆ names) :
    acks.length = names.length ↔ ∀ n ∈ names, n ∈ acks := by
  constructor
  · intro hlen n hn
    have hA : acks.toFinset ⊆ names.toFinset := by
      intro a ha
      rw [List.mem_toFinset] at *
      exact hsub ha
    have hcard : names.toFinset.card ≤ acks.toFinset.card := by
      rw [List.toFinset_card_of_nodup hnames, List.toFinset_card_of_nodup hacks]
      omega
    have heq := Finset.eq_of_subset_of_card_le hA hcard
    have : n ∈ names.toFinset := List.mem_toFinset.mpr hn
    rw [← heq, List.mem_toFinset] at this
    exact this
  · intro hall
    have h1 : names.toFinset ⊆ acks.toFinset := by
      intro a ha
      rw [List.mem_toFinset] at *
      exact hall a ha
    have h2 : acks.toFinset ⊆ names.toFinset := by
      intro a ha
      rw [List.mem_toFinset] at *
      exact hsub ha
    have heq : acks.toFinset = names.toFinset := subset_antisymm h2 h1
    rw [← List.toFinset_card_of_nodup hnames, ← List.toFinset_card_of_nodup hacks,
      heq]

/-- C3 (counterexample): with workers `[1, 2]` registered at construction
and a run in which worker `1` delivers two acknowledgements while worker `2`
delivers none, `all_poison_pills_received` is true even though not every
registered worker has acknowledged end-of-queue — the predicate only counts
acknowledgements, it does not track which worker sent them. -/
theorem all_poison_pills_received_counterexample :
    (applyAcks (JobQueueHelper.init (ρ := Nat) ([] : List Nat) [1, 2])
        [1, 1]).all_poison_pills_received = true
      ∧ ¬ (∀ n ∈ ([1, 2] : List Nat), n ∈ ([1, 1] : List Nat)) := by
  decide

/-- C3 (amended): `all_poison_pills_received` is true exactly when the
number of acknowledgements received equals the number of workers registered
at construction; under runs in which every acknowledgement comes from a
registered worker and no worker acknowledges twice (which the worker
protocol ensures via its `poison_pill_received` flag), this is equivalent to
every registered worker having delivered its own acknowledgement. -/
theorem all_poison_pills_received_spec (jobs names acks : List Nat)
    (hnames : names.Nodup) (hacks : acks.Nodup) (hsub : acks ⊆ names) :
    ((applyAcks (JobQueueHelper.init (ρ := Nat) jobs names)
          acks).all_poison_pills_received = true
        ↔ acks.length = names.length)
      ∧ ((applyAcks (JobQueueHelper.init (ρ := Nat) jobs names)
          acks).all_poison_pills_received = true
        ↔ ∀ n ∈ names, n ∈ acks) := by
  have hw : (applyAcks (JobQueueHelper.init (ρ := Nat) jobs names)
      acks).workers.length = names.length := by
    rw [applyAcks_workers, init_workers_length, pyDictKeys_eq_self hnames]
  have hp : (applyAcks (JobQueueHelper.init (ρ := Nat) jobs names)
      acks).poison_pills_received = acks.length := by
    rw [applyAcks_pills]
    simp [JobQueueHelper.init]
  have hcount : (applyAcks (JobQueueHelper.init (ρ := Nat) jobs names)
      acks).all_poison_pills_received = true ↔ acks.length = names.length := by
    rw [JobQueueHelper.all_poison_pills_received, decide_eq_true_iff, hw, hp]
    omega
  exact ⟨hcount, hcount.trans (nodup_length_eq_iff hnames hacks hsub)⟩

/-- Witness for C3 (amended) at workers `[1, 2]`, acknowledgements `[2, 1]`. -/
theorem all_poison_pills_received_spec_witness :
    ([1, 2] : List Nat).Nodup ∧ ([2, 1] : List Nat).Nodup
      ∧ ([2, 1] : List Nat) ⊆ ([1, 2] : List Nat)
      ∧ (((applyAcks (JobQueueHelper.init (ρ := Nat) ([] : List Nat) [1, 2])
            [2, 1]).all_poison_pills_received = true
          ↔ ([2, 1] : List Nat).length = ([1, 2] : List Nat).length)
        ∧ ((applyAcks (JobQueueHelper.init (ρ := Nat) ([] : List Nat) [1, 2])
            [2, 1]).all_poison_pills_received = true
          ↔ ∀ n ∈ ([1, 2] : List Nat), n ∈ ([2, 1] : List Nat))) :=
  ⟨by decide, by decide, by decide,
    all_poison_pills_received_spec [] [1, 2] [2, 1] (by decide) (by decide)
      (by decide)⟩

/-! ## Master collective-phase trigger
(`asdf_data_set.py`, `_dispatch_processing_mpi_master_node`, lines 1142-1144) -/

/-- The condition under which the master's reactive loop enters the
collective phase on a tick.  The Python test is
`len(workers_requesting_write) >= 0.5 * self.mpi.comm.size or
(len(workers_requesting_write) and jobs.all_poison_pills_received)`.
The floating-point constant `0.5`, the product `0.5 * size` and the
comparison against an integer list length are all exact for every rank
count below `2 ^ 52`, so the test is embedded exactly over the rationals. -/
def masterEntersCollective (workers_requesting_write : List Nat) (size : Nat)
    (allPills : Bool) : Bool :=
  decide ((workers_requesting_write.length : ℚ) ≥ (0.5 : ℚ) * (size : ℚ))
    || (decide (workers_requesting_write.length ≠ 0) && allPills)

/-- C4: for every total rank count `N ≥ 2`, the master enters the collective
phase exactly when the number of workers waiting to write reaches
`⌈N / 2⌉ = (N + 1) / 2`, or when at least one worker is waiting and every
poison pill has been acknowledged; in particular the code's floating-point
test `len(workers_requesting_write) >= 0.5 * N` coincides with the integer
ceiling threshold for every length. -/
theorem master_collective_threshold (wrw : List Nat) (N : Nat) (allPills : Bool)
    (hN : 2 ≤ N) :
    masterEntersCollective wrw N allPills = true ↔
      ((N + 1) / 2 ≤ wrw.length ∨ (1 ≤ wrw.length ∧ allPills = true)) := by
  clear hN
  have key : ((0.5 : ℚ) * (N : ℚ) ≤ (wrw.length : ℚ)) ↔
      (N + 1) / 2 ≤ wrw.length := by
    have h05 : (0.5 : ℚ) = 1 / 2 := by norm_num
    rw [h05, div_mul_eq_mul_div, one_mul,
      div_le_iff (by norm_num : (0 : ℚ) < 2)]
    constructor
    · intro h
      have h2 : (N : ℚ) ≤ ((wrw.length * 2 : Nat) : ℚ) := by push_cast; linarith
      have h3 : N ≤ wrw.length * 2 := Nat.cast_le.mp h2
      omega
    · intro h
      have h2 : N ≤ wrw.length * 2 := by omega
      have h3 : (N : ℚ) ≤ ((wrw.length * 2 : Nat) : ℚ) := Nat.cast_le.mpr h2
      push_cast at h3
      linarith
  simp only [masterEntersCollective, Bool.or_eq_true, Bool.and_eq_true,
    decide_eq_true_iff, ge_iff_le]
  rw [key]
  constructor
  · rintro (h | ⟨h, hp⟩)
    · exact Or.inl h
    · exact Or.inr ⟨by omega, hp⟩
  · rintro (h | ⟨h, hp⟩)
    · exact Or.inl h
    · exact Or.inr ⟨by omega, hp⟩

/-- Witness for C4 at `N = 2` with one waiting writer and pills outstanding. -/
theorem master_collective_threshold_witness :
    2 ≤ 2 ∧ (masterEntersCollective [7] 2 false = true ↔
      ((2 + 1) / 2 ≤ ([7] : List Nat).length
        ∨ (1 ≤ ([7] : List Nat).length ∧ false = true))) :=
  ⟨by decide, master_collective_threshold [7] 2 false (by decide)⟩

/-! ## Lemmas about `updateWorker` and dict lookup -/

theorem updateWorker_cons (k : Nat) (u : Worker α ρ)
    (rest : List (Nat × Worker α ρ)) (name : Nat) (w : Worker α ρ) :
    updateWorker ((k, u) :: rest) name w =
      (if k = name then (name, w) else (k, u)) :: updateWorker rest name w := rfl

theorem lookup_cons_eq {κ β : Type} [BEq κ] [LawfulBEq κ] (k : κ) (u : β)
    (rest : List (κ × β)) : ((k, u) :: rest).lookup k = some u := by
  simp [List.lookup]

theorem lookup_cons_ne {κ β : Type} [BEq κ] [LawfulBEq κ] (k k' : κ) (u : β)
    (rest : List (κ × β)) (h : k' ≠ k) :
    ((k, u) :: rest).lookup k' = rest.lookup k' := by
  have hb : (k' == k) = false := by simpa using h
  simp [List.lookup, hb]

theorem lookup_some_mem_fst {κ β : Type} [BEq κ] [LawfulBEq κ]
    {l : List (κ × β)} {a : κ} {b : β} (h : l.lookup a = some b) :
    a ∈ l.map Prod.fst := by
  induction l with
  | nil => simp [List.lookup] at h
  | cons p rest ih =>
    obtain ⟨k, v⟩ := p
    by_cases hk : a = k
    · subst hk
      simp
    · rw [lookup_cons_ne _ _ _ _ hk] at h
      simpa using Or.inr (ih h)

theorem mem_fst_lookup_isSome {κ β : Type} [BEq κ] [LawfulBEq κ]
    {l : List (κ × β)} {a : κ} (h : a ∈ l.map Prod.fst) :
    ∃ b, l.lookup a = some b := by
  induction l with
  | nil => simp at h
  | cons p rest ih =>
    obtain ⟨k, v⟩ := p
    by_cases hk : a = k
    · subst hk
      exact ⟨v, lookup_cons_eq _ _ _⟩
    · rw [lookup_cons_ne _ _ _ _ hk]
      apply ih
      simpa [hk] using h

theorem lookup_updateWorker_self (ws : List (Nat × Worker α ρ)) (name : Nat)
    (w v : Worker α ρ) (h : ws.lookup name = some v) :
    (updateWorker ws name w).lookup name = some w := by
  induction ws with
  | nil => simp [List.lookup] at h
  | cons p rest ih =>
    obtain ⟨k, u⟩ := p
    rw [updateWorker_cons]
    by_cases hk : k = name
    · subst hk
      rw [if_pos rfl, lookup_cons_eq]
    · rw [if_neg hk, lookup_cons_ne _ _ _ _ (Ne.symm hk)]
      rw [lookup_cons_ne _ _ _ _ (Ne.symm hk)] at h
      exact ih h

theorem lookup_updateWorker_ne (ws : List (Nat × Worker α ρ))
    (name name' : Nat) (w : Worker α ρ) (h : name' ≠ name) :
    (updateWorker ws name w).lookup name' = ws.lookup name' := by
  induction ws with
  | nil => rfl
  | cons p rest ih =>
    obtain ⟨k, u⟩ := p
    rw [updateWorker_cons]
    by_cases hk : k = name
    · subst hk
      rw [if_pos rfl, lookup_cons_ne _ _ _ _ h, lookup_cons_ne _ _ _ _ h, ih]
    · rw [if_neg hk]
      by_cases hk' : name' = k
      · subst hk'
        rw [lookup_cons_eq, lookup_cons_eq]
      · rw [lookup_cons_ne _ _ _ _ hk', lookup_cons_ne _ _ _ _ hk', ih]

theorem updateWorker_keys (ws : List (Nat × Worker α ρ)) (name : Nat)
    (w : Worker α ρ) :
    (updateWorker ws name w).map Prod.fst = ws.map Prod.fst := by
  induction ws with
  | nil => rfl
  | cons p rest ih =>
    obtain ⟨k, u⟩ := p
    rw [updateWorker_cons]
    by_cases hk : k = name
    · subst hk
      simp [ih]
    · simp [if_neg hk, ih]

/-! ## C6: `get_job_for_worker` -/

/-- C6: `get_job_for_worker` fails on an empty queue (the Python `pop(0)`
raises `IndexError`); on a non-empty queue, for a registered worker, it
removes exactly the head job (FIFO order of the original job list), appends
it to the requesting worker's active jobs (all other workers, the finished
list and the full job list unchanged) and returns the head job's
arguments. -/
theorem get_job_for_worker_spec (s : JobQueueHelper α ρ) (w : Nat) :
    (s.queue_empty = true → ∃ e, s.get_job_for_worker w = Except.error e)
    ∧ (∀ a s', s.get_job_for_worker w = Except.ok (a, s') →
        ∃ j rest rec, s.in_queue = j :: rest ∧ a = j.arguments
          ∧ s'.in_queue = rest
          ∧ s.workers.lookup w = some rec
          ∧ s'.workers.lookup w =
              some (Worker.mk (rec.active_jobs ++ [j]) rec.completed_jobs_count)
          ∧ (∀ w', w' ≠ w → s'.workers.lookup w' = s.workers.lookup w')
          ∧ s'.finished_jobs = s.finished_jobs
          ∧ s'.all_jobs = s.all_jobs) := by
  constructor
  · intro hq
    rw [JobQueueHelper.queue_empty, List.isEmpty_iff] at hq
    exact ⟨"IndexError: pop from empty list",
      by simp only [JobQueueHelper.get_job_for_worker, hq]⟩
  · intro a s' h
    simp only [JobQueueHelper.get_job_for_worker] at h
    split at h
    · exact absurd h (by simp)
    · rename_i j rest hq
      split at h
      · exact absurd h (by simp)
      · rename_i rec hl
        simp only [Except.ok.injEq, Prod.mk.injEq] at h
        obtain ⟨ha, hs⟩ := h
        subst hs
        refine ⟨j, rest, rec, hq, ha.symm, rfl, hl, ?_, ?_, rfl, rfl⟩
        · exact lookup_updateWorker_self s.workers w _ rec hl
        · intro w' hw'
          exact lookup_updateWorker_ne s.workers w w' _ hw'

/-- The state produced by handing the head job of `init [5, 7] [1]` to
worker `1`; used by the C6 witness. -/
def getJobWitnessState : JobQueueHelper Nat Nat :=
  { all_jobs := [Job.mk 0 5 none, Job.mk 1 7 none]
    in_queue := [Job.mk 1 7 none]
    finished_jobs := []
    poison_pills_received := 0
    workers := [(1, Worker.mk [Job.mk 0 5 none] 0)] }

/-- Witness for C6: the empty-queue case errors, and on the concrete queue
`init [5, 7] [1]` worker `1` receives exactly the head job. -/
theorem get_job_for_worker_spec_witness :
    (∃ e, (JobQueueHelper.init (ρ := Nat) ([] : List Nat)
        [1]).get_job_for_worker 1 = Except.error e)
    ∧ (∃ j rest rec,
        (JobQueueHelper.init (ρ := Nat) [5, 7] [1]).in_queue = j :: rest
        ∧ (5 : Nat) = j.arguments
        ∧ getJobWitnessState.in_queue = rest
        ∧ (JobQueueHelper.init (ρ := Nat) [5, 7] [1]).workers.lookup 1 = some rec
        ∧ getJobWitnessState.workers.lookup 1 =
            some (Worker.mk (rec.active_jobs ++ [j]) rec.completed_jobs_count)
        ∧ (∀ w', w' ≠ 1 → getJobWitnessState.workers.lookup w' =
            (JobQueueHelper.init (ρ := Nat) [5, 7] [1]).workers.lookup w')
        ∧ getJobWitnessState.finished_jobs =
            (JobQueueHelper.init (ρ := Nat) [5, 7] [1]).finished_jobs
        ∧ getJobWitnessState.all_jobs =
            (JobQueueHelper.init (ρ := Nat) [5, 7] [1]).all_jobs) :=
  ⟨(get_job_for_worker_spec _ 1).1 rfl,
    (get_job_for_worker_spec _ 1).2 5 getJobWitnessState rfl⟩

/-! ## C7: `received_job_from_worker` -/

/-- C7: when exactly one of the worker's active jobs has arguments equal to
`args`, `received_job_from_worker` moves that job to the finished list with
its result slot set, removes it from the worker's active list and increments
the worker's completed count, leaving every other worker, the queue and the
full job list unchanged; when zero or more than one active job matches, it
raises (`ValueError` in Python), and the zero-match `raise` happens before
any mutation, so the state is unchanged (an `Except.error` result carries no
state). -/
theorem received_job_from_worker_spec [DecidableEq α] [DecidableEq ρ]
    (s : JobQueueHelper α ρ) (args : α) (res : ρ) (w : Nat)
    (rec : Worker α ρ) (hw : s.workers.lookup w = some rec) :
    ((rec.active_jobs.filter (fun j => decide (j.arguments = args))).length = 0 →
      ∃ e, s.received_job_from_worker args res w = Except.error e)
    ∧ (1 < (rec.active_jobs.filter
          (fun j => decide (j.arguments = args))).length →
      ∃ e, s.received_job_from_worker args res w = Except.error e)
    ∧ (∀ j, rec.active_jobs.filter (fun j => decide (j.arguments = args)) = [j] →
      ∃ s', s.received_job_from_worker args res w = Except.ok s'
        ∧ s'.finished_jobs = s.finished_jobs ++ [{ j with result := some res }]
        ∧ s'.workers.lookup w =
            some (Worker.mk (rec.active_jobs.erase j)
              (rec.completed_jobs_count + 1))
        ∧ (∀ w', w' ≠ w → s'.workers.lookup w' = s.workers.lookup w')
        ∧ s'.in_queue = s.in_queue
        ∧ s'.all_jobs = s.all_jobs) := by
  refine ⟨?_, ?_, ?_⟩
  · intro h0
    rw [List.length_eq_zero] at h0
    exact ⟨"MASTER: Job not found.",
      by simp only [JobQueueHelper.received_job_from_worker, hw, h0]⟩
  · intro h1
    rcases hf : rec.active_jobs.filter (fun j => decide (j.arguments = args))
      with _ | ⟨a, _ | ⟨b, t⟩⟩
    · rw [hf] at h1
      simp at h1
    · rw [hf] at h1
      simp at h1
    · exact ⟨"WTF: more than one matching active job",
        by simp only [JobQueueHelper.received_job_from_worker, hw, hf]⟩
  · intro j hf
    refine ⟨{ s with
        workers := updateWorker s.workers w
          (Worker.mk (rec.active_jobs.erase j) (rec.completed_jobs_count + 1))
        finished_jobs := s.finished_jobs ++ [{ j with result := some res }] },
      ?_, rfl, ?_, ?_, rfl, rfl⟩
    · simp only [JobQueueHelper.received_job_from_worker, hw, hf]
    · exact lookup_updateWorker_self s.workers w _ rec hw
    · intro w' hw'
      exact lookup_updateWorker_ne s.workers w w' _ hw'

/-- A concrete queue state for the C7 witness: worker `1` holds the single
job `⟨0, 5, none⟩` as active. -/
def receivedWitnessState : JobQueueHelper Nat Nat :=
  { all_jobs := [Job.mk 0 5 none]
    in_queue := []
    finished_jobs := []
    poison_pills_received := 0
    workers := [(1, Worker.mk [Job.mk 0 5 none] 0)] }

/-- Witness for C7: completing job `5` with result `9` on the concrete
state moves the unique matching job to finished. -/
theorem received_job_from_worker_spec_witness :
    receivedWitnessState.workers.lookup 1 = some (Worker.mk [Job.mk 0 5 none] 0)
    ∧ ((Worker.mk [Job.mk 0 5 none] 0 : Worker Nat Nat).active_jobs.filter
        (fun j => decide (j.arguments = 5)) = [Job.mk 0 5 none])
    ∧ ∃ s', receivedWitnessState.received_job_from_worker 5 9 1 = Except.ok s'
        ∧ s'.finished_jobs =
            receivedWitnessState.finished_jobs ++ [Job.mk 0 5 (some 9)]
        ∧ s'.workers.lookup 1 =
            some (Worker.mk (([Job.mk 0 5 none] : List (Job Nat Nat)).erase
              (Job.mk 0 5 none)) 1)
        ∧ (∀ w', w' ≠ 1 → s'.workers.lookup w' =
            receivedWitnessState.workers.lookup w')
        ∧ s'.in_queue = receivedWitnessState.in_queue
        ∧ s'.all_jobs = receivedWitnessState.all_jobs :=
  ⟨rfl, by decide,
    (received_job_from_worker_spec receivedWitnessState 5 9 1
        (Worker.mk [Job.mk 0 5 none] 0) rfl).2.2 (Job.mk 0 5 none) (by decide)⟩

/-! ## C5: the pending / active / finished partition invariant -/

/-- The two state-changing scheduler operations on the job queue: the master
calls `get_job_for_worker` when a `WORKER_REQUESTS_ITEM` message arrives and
`received_job_from_worker` when a `WORKER_DONE_WITH_ITEM` message arrives. -/
inductive JQOp (α ρ : Type) where
  | get (worker : Nat)
  | received (arguments : α) (result : ρ) (worker : Nat)

/-- One scheduler operation applied to the queue state (the value returned
to the worker by `get_job_for_worker` is sent over the bus and does not
affect the queue state). -/
def step [DecidableEq α] [DecidableEq ρ] (s : JobQueueHelper α ρ) :
    JQOp α ρ → Except String (JobQueueHelper α ρ)
  | JQOp.get w =>
    match s.get_job_for_worker w with
    | Except.error e => Except.error e
    | Except.ok (_, s') => Except.ok s'
  | JQOp.received a r w => s.received_job_from_worker a r w

/-- A sequence of scheduler operations, stopping at the first failure. -/
def runOps [DecidableEq α] [DecidableEq ρ] (s : JobQueueHelper α ρ) :
    List (JQOp α ρ) → Except String (JobQueueHelper α ρ)
  | [] => Except.ok s
  | op :: rest =>
    match step s op with
    | Except.error e => Except.error e
    | Except.ok s' => runOps s' rest

/-- All jobs currently active on some worker. -/
def workersActive (ws : List (Nat × Worker α ρ)) : List (Job α ρ) :=
  (ws.map (fun p => p.2.active_jobs)).join

/-- The active set of a queue state: the union over workers of their active
job lists. -/
def activeJobs (s : JobQueueHelper α ρ) : List (Job α ρ) :=
  workersActive s.workers

/-- Identities (construction indices) of a list of jobs. -/
def jobIds (l : List (Job α ρ)) : List Nat := l.map Job.id

/-- Identities of the pending, active and finished sets, concatenated. -/
def stateIds (s : JobQueueHelper α ρ) : List Nat :=
  jobIds s.in_queue ++ (jobIds (activeJobs s) ++ jobIds s.finished_jobs)

/-- The reachability invariant of the job queue: worker names are distinct
(they come from a Python dict) and the pending, active and finished sets
together are a permutation of the full job list. -/
def Inv (s : JobQueueHelper α ρ) : Prop :=
  (s.workers.map Prod.fst).Nodup ∧ (stateIds s).Perm (jobIds s.all_jobs)

/-- One successful operation moves exactly one job between adjacent sets:
either the head of the queue becomes active, or one active job becomes
finished; the third set is untouched. -/
def MovesOneJob (s s' : JobQueueHelper α ρ) : Prop :=
  (∃ i : Nat, jobIds s.in_queue = i :: jobIds s'.in_queue
      ∧ (jobIds (activeJobs s')).Perm (i :: jobIds (activeJobs s))
      ∧ jobIds s'.finished_jobs = jobIds s.finished_jobs)
    ∨ (∃ i : Nat, (jobIds (activeJobs s)).Perm (i :: jobIds (activeJobs s'))
      ∧ jobIds s'.finished_jobs = jobIds s.finished_jobs ++ [i]
      ∧ jobIds s'.in_queue = jobIds s.in_queue)

theorem workersActive_append (a b : List (Nat × Worker α ρ)) :
    workersActive (a ++ b) = workersActive a ++ workersActive b := by
  simp [workersActive]

theorem workersActive_cons (p : Nat × Worker α ρ)
    (rest : List (Nat × Worker α ρ)) :
    workersActive (p :: rest) = p.2.active_jobs ++ workersActive rest := by
  simp [workersActive]

theorem perm_snoc_middle (i : Nat) (A B C : List Nat) :
    (A ++ ((B ++ [i]) ++ C)).Perm (i :: (A ++ (B ++ C))) := by
  have h1 : A ++ ((B ++ [i]) ++ C) = (A ++ B) ++ i :: C := by simp
  have h2 : i :: (A ++ (B ++ C)) = i :: ((A ++ B) ++ C) := by simp
  rw [h1, h2]
  exact List.perm_middle

theorem perm_cons_middle (i : Nat) (A B C : List Nat) :
    (A ++ ((i :: B) ++ C)).Perm (i :: (A ++ (B ++ C))) := by
  have h1 : A ++ ((i :: B) ++ C) = A ++ i :: (B ++ C) := by simp
  rw [h1]
  exact List.perm_middle

theorem lookup_some_split {β : Type} {ws : List (Nat × β)} {name : Nat} {v : β}
    (h : ws.lookup name = some v) :
    ∃ l₁ l₂, ws = l₁ ++ (name, v) :: l₂ ∧ ∀ p ∈ l₁, p.1 ≠ name := by
  induction ws with
  | nil => simp [List.lookup] at h
  | cons p rest ih =>
    obtain ⟨k, u⟩ := p
    by_cases hk : name = k
    · subst hk
      rw [lookup_cons_eq] at h
      obtain rfl : u = v := by injection h
      exact ⟨[], rest, rfl, by simp⟩
    · rw [lookup_cons_ne _ _ _ _ hk] at h
      obtain ⟨l₁, l₂, heq, hni⟩ := ih h
      refine ⟨(k, u) :: l₁, l₂, by rw [heq, List.cons_append], ?_⟩
      intro q hq
      rcases List.mem_cons.mp hq with rfl | hq'
      · exact Ne.symm hk
      · exact hni q hq'

theorem updateWorker_no_key (l : List (Nat × Worker α ρ)) (name : Nat)
    (w : Worker α ρ) (h : ∀ p ∈ l, p.1 ≠ name) : updateWorker l name w = l := by
  induction l with
  | nil => rfl
  | cons p rest ih =>
    obtain ⟨k, u⟩ := p
    rw [updateWorker_cons, if_neg (h (k, u) (List.mem_cons_self _ _)),
      ih (fun q hq => h q (List.mem_cons_of_mem _ hq))]

theorem updateWorker_append (l₁ l₂ : List (Nat × Worker α ρ)) (name : Nat)
    (v w : Worker α ρ) (h₁ : ∀ p ∈ l₁, p.1 ≠ name)
    (h₂ : ∀ p ∈ l₂, p.1 ≠ name) :
    updateWorker (l₁ ++ (name, v) :: l₂) name w = l₁ ++ (name, w) :: l₂ := by
  have hdist : updateWorker (l₁ ++ (name, v) :: l₂) name w =
      updateWorker l₁ name w ++ updateWorker ((name, v) :: l₂) name w := by
    simp [updateWorker]
  rw [hdist, updateWorker_no_key l₁ name w h₁, updateWorker_cons, if_pos rfl,
    updateWorker_no_key l₂ name w h₂]

theorem keys_nodup_right {ws l₁ l₂ : List (Nat × Worker α ρ)} {name : Nat}
    {v : Worker α ρ} (heq : ws = l₁ ++ (name, v) :: l₂)
    (hnd : (ws.map Prod.fst).Nodup) : ∀ p ∈ l₂, p.1 ≠ name := by
  subst heq
  rw [List.map_append, List.map_cons] at hnd
  intro p hp hpname
  have hmem : name ∈ l₂.map Prod.fst := by
    rw [← hpname]
    exact List.mem_map_of_mem _ hp
  have hnd2 := (List.nodup_append.mp hnd).2.1
  rw [List.nodup_cons] at hnd2
  exact hnd2.1 hmem

/-- Inversion of a successful `get_job_for_worker`. -/
theorem get_job_ok {s : JobQueueHelper α ρ} {w : Nat} {a : α}
    {s' : JobQueueHelper α ρ} (h : s.get_job_for_worker w = Except.ok (a, s')) :
    ∃ j rest v, s.in_queue = j :: rest ∧ s.workers.lookup w = some v
      ∧ a = j.arguments
      ∧ s' = { s with
          in_queue := rest
          workers := updateWorker s.workers w
            (Worker.mk (v.active_jobs ++ [j]) v.completed_jobs_count) } := by
  simp only [JobQueueHelper.get_job_for_worker] at h
  split at h
  · exact absurd h (by simp)
  · rename_i j rest hq
    split at h
    · exact absurd h (by simp)
    · rename_i v hl
      simp only [Except.ok.injEq, Prod.mk.injEq] at h
      exact ⟨j, rest, v, hq, hl, h.1.symm, h.2.symm⟩

/-- Inversion of a successful `received_job_from_worker`. -/
theorem received_ok [DecidableEq α] [DecidableEq ρ] {s : JobQueueHelper α ρ}
    {a : α} {r : ρ} {w : Nat} {s' : JobQueueHelper α ρ}
    (h : s.received_job_from_worker a r w = Except.ok s') :
    ∃ v job, s.workers.lookup w = some v
      ∧ v.active_jobs.filter (fun j => decide (j.arguments = a)) = [job]
      ∧ s' = { s with
          workers := updateWorker s.workers w
            (Worker.mk (v.active_jobs.erase job) (v.completed_jobs_count + 1))
          finished_jobs := s.finished_jobs ++ [{ job with result := some r }] } := by
  simp only [JobQueueHelper.received_job_from_worker] at h
  split at h
  · exact absurd h (by simp)
  · rename_i v hl
    split at h
    · exact absurd h (by simp)
    · rename_i job hf
      simp only [Except.ok.injEq] at h
      exact ⟨v, job, hl, hf, h.symm⟩
    · exact absurd h (by simp)

/-- A successful scheduler operation preserves the invariant, moves exactly
one job between adjacent sets, and never touches the full job list. -/
theorem step_ok_inv [DecidableEq α] [DecidableEq ρ] {s s' : JobQueueHelper α ρ}
    {op : JQOp α ρ} (hinv : Inv s) (h : step s op = Except.ok s') :
    Inv s' ∧ MovesOneJob s s' ∧ s'.all_jobs = s.all_jobs := by
  cases op with
  | get w =>
    simp only [step] at h
    split at h
    · exact absurd h (by simp)
    · rename_i a s₀ heq
      simp only [Except.ok.injEq] at h
      subst h
      obtain ⟨j, rest, v, hq, hl, -, hs⟩ := get_job_ok heq
      subst hs
      obtain ⟨l₁, l₂, hsplit, hl₁⟩ := lookup_some_split hl
      have hl₂ := keys_nodup_right hsplit hinv.1
      have hupd : updateWorker s.workers w
          (Worker.mk (v.active_jobs ++ [j]) v.completed_jobs_count) =
          l₁ ++ (w, Worker.mk (v.active_jobs ++ [j]) v.completed_jobs_count)
            :: l₂ := by
        rw [hsplit]
        exact updateWorker_append l₁ l₂ w v _ hl₁ hl₂
      have hact : (jobIds (workersActive (updateWorker s.workers w
            (Worker.mk (v.active_jobs ++ [j]) v.completed_jobs_count)))).Perm
          (j.id :: jobIds (workersActive s.workers)) := by
        rw [hupd, hsplit]
        rw [workersActive_append, workersActive_cons, workersActive_append,
          workersActive_cons]
        simp only [jobIds, List.map_append]
        exact perm_snoc_middle j.id _ _ _
      refine ⟨⟨?_, ?_⟩, Or.inl ⟨j.id, by rw [hq]; rfl, hact, rfl⟩, rfl⟩
      · show ((updateWorker s.workers w
            (Worker.mk (v.active_jobs ++ [j]) v.completed_jobs_count)).map
              Prod.fst).Nodup
        rw [updateWorker_keys]
        exact hinv.1
      · show (jobIds rest ++ (jobIds (workersActive (updateWorker s.workers w
            (Worker.mk (v.active_jobs ++ [j]) v.completed_jobs_count)))
            ++ jobIds s.finished_jobs)).Perm (jobIds s.all_jobs)
        have hstate : stateIds s = jobIds (j :: rest)
            ++ (jobIds (activeJobs s) ++ jobIds s.finished_jobs) := by
          rw [stateIds, hq]
        have hchain : (jobIds rest ++ (jobIds (workersActive
            (updateWorker s.workers w (Worker.mk (v.active_jobs ++ [j])
              v.completed_jobs_count))) ++ jobIds s.finished_jobs)).Perm
            (j.id :: (jobIds rest ++ (jobIds (workersActive s.workers)
              ++ jobIds s.finished_jobs))) :=
          Trans.trans
            (List.Perm.append_left (jobIds rest)
              (hact.append_right (jobIds s.finished_jobs)))
            (perm_cons_middle j.id _ _ _)
        have hback : j.id :: (jobIds rest ++ (jobIds (workersActive s.workers)
            ++ jobIds s.finished_jobs)) = stateIds s := by
          rw [hstate]
          simp [jobIds, activeJobs]
        exact Trans.trans (hback ▸ hchain) hinv.2
  | received a r w =>
    simp only [step] at h
    obtain ⟨v, job, hl, hf, hs⟩ := received_ok h
    subst hs
    have hjob_mem : job ∈ v.active_jobs := by
      have : job ∈ v.active_jobs.filter (fun j => decide (j.arguments = a)) := by
        rw [hf]
        exact List.mem_singleton_self job
      exact (List.mem_filter.mp this).1
    have hVids : (List.map Job.id v.active_jobs).Perm
        (job.id :: List.map Job.id (v.active_jobs.erase job)) := by
      have hperm := (List.perm_cons_erase hjob_mem).map Job.id
      simpa using hperm
    obtain ⟨l₁, l₂, hsplit, hl₁⟩ := lookup_some_split hl
    have hl₂ := keys_nodup_right hsplit hinv.1
    have hupd : updateWorker s.workers w
        (Worker.mk (v.active_jobs.erase job) (v.completed_jobs_count + 1)) =
        l₁ ++ (w, Worker.mk (v.active_jobs.erase job)
          (v.completed_jobs_count + 1)) :: l₂ := by
      rw [hsplit]
      exact updateWorker_append l₁ l₂ w v _ hl₁ hl₂
    have hact : (jobIds (workersActive s.workers)).Perm
        (job.id :: jobIds (workersActive (updateWorker s.workers w
          (Worker.mk (v.active_jobs.erase job)
            (v.completed_jobs_count + 1))))) := by
      rw [hupd, hsplit]
      rw [workersActive_append, workersActive_cons, workersActive_append,
        workersActive_cons]
      simp only [jobIds, List.map_append]
      exact Trans.trans
        (List.Perm.append_left _ (hVids.append_right _))
        (perm_cons_middle job.id _ _ _)
    have hfin : jobIds (s.finished_jobs ++ [{ job with result := some r }]) =
        jobIds s.finished_jobs ++ [job.id] := by
      simp [jobIds]
    refine ⟨⟨?_, ?_⟩, Or.inr ⟨job.id, hact, hfin, rfl⟩, rfl⟩
    · show ((updateWorker s.workers w
          (Worker.mk (v.active_jobs.erase job)
            (v.completed_jobs_count + 1))).map Prod.fst).Nodup
      rw [updateWorker_keys]
      exact hinv.1
    · show (jobIds s.in_queue ++ (jobIds (workersActive (updateWorker
          s.workers w (Worker.mk (v.active_jobs.erase job)
            (v.completed_jobs_count + 1))))
          ++ jobIds (s.finished_jobs ++ [{ job with result := some r }]))).Perm
          (jobIds s.all_jobs)
      rw [hfin]
      have h2 : jobIds s.in_queue ++ (jobIds (workersActive (updateWorker
          s.workers w (Worker.mk (v.active_jobs.erase job)
            (v.completed_jobs_count + 1))))
          ++ (jobIds s.finished_jobs ++ [job.id])) =
          (jobIds s.in_queue ++ (jobIds (workersActive (updateWorker
            s.workers w (Worker.mk (v.active_jobs.erase job)
              (v.completed_jobs_count + 1))))
            ++ jobIds s.finished_jobs)) ++ [job.id] := by
        simp
      rw [h2]
      have hsingle := List.perm_append_singleton job.id
        (jobIds s.in_queue ++ (jobIds (workersActive (updateWorker
          s.workers w (Worker.mk (v.active_jobs.erase job)
            (v.completed_jobs_count + 1))))
          ++ jobIds s.finished_jobs))
      have hstep2 : (stateIds s).Perm
          (job.id :: (jobIds s.in_queue ++ (jobIds (workersActive
            (updateWorker s.workers w (Worker.mk (v.active_jobs.erase job)
              (v.completed_jobs_count + 1))))
            ++ jobIds s.finished_jobs))) :=
        Trans.trans
          (List.Perm.append_left (jobIds s.in_queue)
            (hact.append_right (jobIds s.finished_jobs)))
          (perm_cons_middle job.id _ _ _)
      exact Trans.trans (Trans.trans hsingle hstep2.symm) hinv.2

/-- Running a sequence of successful operations preserves the invariant and
the full job list. -/
theorem runOps_ok [DecidableEq α] [DecidableEq ρ] {s s' : JobQueueHelper α ρ}
    {ops : List (JQOp α ρ)} (h : runOps s ops = Except.ok s') (hinv : Inv s) :
    Inv s' ∧ s'.all_jobs = s.all_jobs := by
  induction ops generalizing s with
  | nil =>
    simp only [runOps, Except.ok.injEq] at h
    subst h
    exact ⟨hinv, rfl⟩
  | cons op rest ih =>
    simp only [runOps] at h
    split at h
    · exact absurd h (by simp)
    · rename_i s₁ heq
      obtain ⟨hinv₁, -, hall₁⟩ := step_ok_inv hinv heq
      obtain ⟨hinv', hall'⟩ := ih h hinv₁
      exact ⟨hinv', hall'.trans hall₁⟩

theorem workersActive_fresh (l : List Nat) :
    workersActive (l.map (fun n =>
      (n, Worker.mk ([] : List (Job α ρ)) 0))) = [] := by
  induction l with
  | nil => rfl
  | cons n rest ih =>
    rw [List.map_cons, workersActive_cons]
    simpa using ih

/-- The freshly constructed queue satisfies the invariant. -/
theorem init_inv (jobs : List α) (names : List Nat) :
    Inv (JobQueueHelper.init (ρ := ρ) jobs names) := by
  constructor
  · show (((pyDictKeys names).map (fun n =>
        (n, Worker.mk ([] : List (Job α ρ)) 0))).map Prod.fst).Nodup
    rw [List.map_map]
    have hid : (Prod.fst ∘ fun n =>
        ((n, Worker.mk ([] : List (Job α ρ)) 0) : Nat × Worker α ρ)) =
        fun n => n := rfl
    rw [hid]
    simpa using pyDictKeys_nodup names
  · show (stateIds (JobQueueHelper.init (ρ := ρ) jobs names)).Perm
      (jobIds (JobQueueHelper.init (ρ := ρ) jobs names).all_jobs)
    rw [stateIds]
    have hact : activeJobs (JobQueueHelper.init (ρ := ρ) jobs names) = [] :=
      workersActive_fresh (pyDictKeys names)
    rw [hact]
    simp [JobQueueHelper.init, jobIds]

/-- The job identities of the initial job list are `0, 1, ..., n - 1`. -/
theorem init_all_ids (jobs : List α) (names : List Nat) :
    jobIds (JobQueueHelper.init (ρ := ρ) jobs names).all_jobs =
      List.range jobs.length := by
  show jobIds (jobs.enum.map (fun p => Job.mk p.1 p.2 none)) = _
  rw [jobIds, List.map_map]
  exact List.enum_map_fst jobs

/-- C5: for every initial job list, worker set and successful operation
sequence, the identities of the pending, active and finished jobs together
form a duplicate-free permutation of the initial job indices: the three
sets are pairwise disjoint, their union is exactly the initial job set, a
job appears in finished at most once, and every further successful
operation moves exactly one job between adjacent sets. -/
theorem jobQueue_partition (jobs names : List Nat) (ops : List (JQOp Nat Nat))
    (s : JobQueueHelper Nat Nat)
    (h : runOps (JobQueueHelper.init jobs names) ops = Except.ok s) :
    (stateIds s).Perm (List.range jobs.length)
    ∧ (stateIds s).Nodup
    ∧ (jobIds s.in_queue).Disjoint (jobIds (activeJobs s))
    ∧ (jobIds s.in_queue).Disjoint (jobIds s.finished_jobs)
    ∧ (jobIds (activeJobs s)).Disjoint (jobIds s.finished_jobs)
    ∧ (jobIds s.finished_jobs).Nodup
    ∧ (∀ op s', step s op = Except.ok s' → MovesOneJob s s') := by
  obtain ⟨hinv, hall⟩ := runOps_ok h (init_inv jobs names)
  have hperm : (stateIds s).Perm (List.range jobs.length) := by
    have hp := hinv.2
    rw [hall, init_all_ids] at hp
    exact hp
  have hnd : (stateIds s).Nodup := hperm.nodup_iff.mpr (List.nodup_range _)
  have hnd' := hnd
  rw [stateIds] at hnd'
  obtain ⟨hQN, hAF, hdisjQ⟩ := List.nodup_append.mp hnd'
  obtain ⟨hAN, hFN, hdisjAF⟩ := List.nodup_append.mp hAF
  refine ⟨hperm, hnd, ?_, ?_, hdisjAF, hFN, ?_⟩
  · intro x hx hx'
    exact hdisjQ hx (List.mem_append_left _ hx')
  · intro x hx hx'
    exact hdisjQ hx (List.mem_append_right _ hx')
  · intro op s' h'
    exact (step_ok_inv hinv h').2.1

/-- The state produced by the single operation of the C5 witness run. -/
def c5WitnessState : JobQueueHelper Nat Nat :=
  { all_jobs := [Job.mk 0 5 none, Job.mk 1 7 none]
    in_queue := [Job.mk 1 7 none]
    finished_jobs := []
    poison_pills_received := 0
    workers := [(1, Worker.mk [Job.mk 0 5 none] 0)] }

/-- Witness for C5 at the concrete run `init [5, 7] [1]` followed by
`get 1`. -/
theorem jobQueue_partition_witness :
    runOps (JobQueueHelper.init [5, 7] [1]) [JQOp.get 1] =
      Except.ok c5WitnessState
    ∧ (stateIds c5WitnessState).Perm (List.range ([5, 7] : List Nat).length)
    ∧ (stateIds c5WitnessState).Nodup :=
  ⟨rfl,
    (jobQueue_partition [5, 7] [1] [JQOp.get 1] c5WitnessState rfl).1,
    (jobQueue_partition [5, 7] [1] [JQOp.get 1] c5WitnessState rfl).2.1⟩

/-! ## The waveform group of the HDF5 store
(`asdf_data_set.py`, `add_waveforms` and helpers, lines 567-836) -/

/-- The `/Waveforms` group of the HDF5 file, at the metadata-tree level at
which the claims speak: an association list from station name (`net.sta`)
to the list of child names of the station group (waveform dataset names
and possibly the `"StationXML"` entry). -/
structure WaveformGroup where
  stations : List (String × List String)
deriving DecidableEq

/-- The per-trace metadata used by `_add_trace_get_collective_information`.
The two `strftime("%Y-%m-%dT%H:%M:%S")`-formatted endpoint times are carried
as the already-formatted strings. -/
structure TraceStats where
  network : String
  station : String
  location : String
  channel : String
  starttime : String
  endtime : String
  npts : Nat
deriving DecidableEq

/-- `station_name = "%s.%s" % (network, station)` (line 776). -/
def station_name_of (t : TraceStats) : String :=
  t.network ++ "." ++ t.station

/-- The dataset name `net.sta.loc.cha__start__end__tag` (lines 778-785). -/
def data_name_of (t : TraceStats) (tag : String) : String :=
  t.network ++ "." ++ t.station ++ "." ++ t.location ++ "." ++ t.channel
    ++ "__" ++ t.starttime ++ "__" ++ t.endtime ++ "__" ++ tag

/-- The collective information (`info` dict, lines 801-819) describing one
dataset to be created: the WriteIntent of the specification.  Compression,
checksum and attribute details do not enter any claim and are omitted;
`shape` records `(npts,)`. -/
structure DatasetInfo where
  station_name : String
  data_name : String
  dataset_name : String
  shape : Nat
deriving DecidableEq

/-- `group_name in self._waveform_group` for the path
`station_name + "/" + dataset_name` (line 788): h5py path membership in the
nested group tree. -/
def pathExists (g : WaveformGroup) (stationName dataName : String) : Bool :=
  match g.stations.lookup stationName with
  | none => false
  | some ks => decide (dataName ∈ ks)

/-- `_add_trace_get_collective_information` (lines 764-836): compute the
station and data names; if the path already exists, warn (`ASDFWarning`)
and return `None`; otherwise return the dataset-creation description. -/
def addTraceGetCollectiveInformation (g : WaveformGroup) (t : TraceStats)
    (tag : String) : Option DatasetInfo :=
  let sn := station_name_of t
  let dn := data_name_of t tag
  if pathExists g sn dn then none
  else some (DatasetInfo.mk sn (sn ++ "/" ++ dn) dn t.npts)

/-- `h5py` `Group.create_dataset` on the metadata tree: creating a name
that already exists in the group raises (`ValueError: unable to create
dataset, name already exists` in h5py); otherwise the name is added.  This
is the behaviour of the external HDF5 store that §4.1 of the specification
requires of `write_collective` (the store itself is outside this
repository; only its documented duplicate-name behaviour is modelled). -/
def create_dataset (ks : List String) (name : String) :
    Except String (List String) :=
  if name ∈ ks then
    Except.error "unable to create dataset, name already exists"
  else Except.ok (ks ++ [name])

/-- Assignment of a station's child list in the group tree. -/
def updateStation (l : List (String × List String)) (name : String)
    (ks : List String) : List (String × List String) :=
  l.map (fun p => if p.1 = name then (name, ks) else p)

/-- `_add_trace_write_collective_information` (lines 748-762): create the
station group if it does not exist, then `create_dataset` with the
recorded creation parameters inside it. -/
def addTraceWriteCollectiveInformation (g : WaveformGroup)
    (info : DatasetInfo) : Except String WaveformGroup :=
  let g' : WaveformGroup :=
    if (g.stations.lookup info.station_name).isSome then g
    else WaveformGroup.mk (g.stations ++ [(info.station_name, [])])
  match g'.stations.lookup info.station_name with
  | none => Except.error "KeyError"
  | some ks =>
    match create_dataset ks info.dataset_name with
    | Except.error e => Except.error e
    | Except.ok ks' =>
      Except.ok (WaveformGroup.mk (updateStation g'.stations
        info.station_name ks'))

/-- C2: for every store state and every write intent whose target dataset
path is already present, performing the collective write step raises: the
station group already exists, so no group is created, and `create_dataset`
on the existing name fails — the duplicate is an error, never silently
ignored. -/
theorem duplicate_collective_write_raises (g : WaveformGroup)
    (info : DatasetInfo)
    (h : pathExists g info.station_name info.dataset_name = true) :
    ∃ e, addTraceWriteCollectiveInformation g info = Except.error e := by
  rw [pathExists] at h
  split at h
  · exact absurd h (by simp)
  · rename_i ks hl
    have hmem : info.dataset_name ∈ ks := of_decide_eq_true h
    refine ⟨"unable to create dataset, name already exists", ?_⟩
    simp only [addTraceWriteCollectiveInformation, hl, Option.isSome_some,
      if_true, create_dataset, if_pos hmem]

/-- Witness for C2: a store already holding the dataset
`BW.RJOB/BW.RJOB..EHZ__s__e__raw`. -/
theorem duplicate_collective_write_raises_witness :
    pathExists
        (WaveformGroup.mk [("BW.RJOB", ["BW.RJOB..EHZ__s__e__raw"])])
        "BW.RJOB" "BW.RJOB..EHZ__s__e__raw" = true
    ∧ ∃ e, addTraceWriteCollectiveInformation
        (WaveformGroup.mk [("BW.RJOB", ["BW.RJOB..EHZ__s__e__raw"])])
        (DatasetInfo.mk "BW.RJOB" "BW.RJOB/BW.RJOB..EHZ__s__e__raw"
          "BW.RJOB..EHZ__s__e__raw" 100) = Except.error e :=
  ⟨by decide,
    duplicate_collective_write_raises
      (WaveformGroup.mk [("BW.RJOB", ["BW.RJOB..EHZ__s__e__raw"])])
      (DatasetInfo.mk "BW.RJOB" "BW.RJOB/BW.RJOB..EHZ__s__e__raw"
        "BW.RJOB..EHZ__s__e__raw" 100) (by decide)⟩

/-- `_add_trace_write_independent_information` (lines 738-746) copies the
sample array into the already-created dataset; it changes dataset contents
only, never the metadata tree the model tracks, so on the tree it is the
identity. -/
def addTraceWriteIndependentInformation (g : WaveformGroup)
    (info : DatasetInfo) (t : TraceStats) : WaveformGroup := g

/-- The trace loop of `add_waveforms` (lines 726-736): for each trace,
compute the collective information; when it is `None` (duplicate path,
warned) skip the trace, else perform the collective write then the
independent write. -/
def addWaveformsLoop (g : WaveformGroup) (traces : List TraceStats)
    (tag : String) : Except String WaveformGroup :=
  match traces with
  | [] => Except.ok g
  | t :: rest =>
    match addTraceGetCollectiveInformation g t tag with
    | none => addWaveformsLoop g rest tag
    | some info =>
      match addTraceWriteCollectiveInformation g info with
      | Except.error e => Except.error e
      | Except.ok g' =>
        addWaveformsLoop (addTraceWriteIndependentInformation g' info t)
          rest tag

/-- Python `str.strip()`: remove whitespace characters from both ends of
the string (modelled on the character list). -/
def pyStrip (s : String) : String :=
  String.mk (((s.data.dropWhile Char.isWhitespace).reverse.dropWhile
    Char.isWhitespace).reverse)

/-- Python `str.lower()`: lower-case every character (modelled on the
character list with the ASCII case mapping of `Char.toLower`). -/
def pyLower (s : String) : String :=
  String.mk (s.data.map Char.toLower)

/-- `add_waveforms` for a waveform already in `Stream`/`Trace` form (the
event/origin/magnitude/mechanism id extraction of lines 658-710 never
touches the store and is omitted): the tag is stripped, rejected when its
lower-cased form is `"stationxml"` (lines 712-715), and only then is each
trace added (lines 726-736). -/
def add_waveforms (g : WaveformGroup) (traces : List TraceStats)
    (tag : String) : Except String WaveformGroup :=
  let tag := pyStrip tag
  if pyLower tag == "stationxml" then
    Except.error ("Tag " ++ tag ++ " is invalid.")
  else addWaveformsLoop g traces tag

/-- C10: for every store, every waveform and every tag whose stripped,
lower-cased form equals `"stationxml"`, `add_waveforms` raises `ValueError`
before any trace is extracted or written — the result is an error and no
store state is produced, so no waveform dataset can ever shadow a
station's `StationXML` entry. -/
theorem stationxml_tag_rejected (g : WaveformGroup) (traces : List TraceStats)
    (tag : String) (h : pyLower (pyStrip tag) = "stationxml") :
    add_waveforms g traces tag =
      Except.error ("Tag " ++ pyStrip tag ++ " is invalid.") := by
  simp only [add_waveforms, h]
  rfl

/-- Witness for C10 at the tag `" StationXML "`. -/
theorem stationxml_tag_rejected_witness :
    pyLower (pyStrip " StationXML ") = "stationxml"
    ∧ add_waveforms (WaveformGroup.mk []) [] " StationXML " =
        Except.error ("Tag " ++ pyStrip " StationXML " ++ " is invalid.") :=
  ⟨by decide, stationxml_tag_rejected (WaveformGroup.mk []) [] " StationXML "
    (by decide)⟩

/-! ## C8: the pre-checks of `process`
(`asdf_data_set.py`, lines 1032-1063) -/

/-- `get_station_list` (lines 984-988): sorted keys of the waveforms
group. -/
def get_station_list (g : WaveformGroup) : List String :=
  (g.stations.map Prod.fst).mergeSort (fun a b => a ≤ b)

/-- `waveform.split("__")[-1]` (line 1055): the final `__`-delimited
component of a dataset name (Python `split` on a non-empty separator never
returns an empty list, and neither does `String.splitOn`). -/
def lastTagComponent (s : String) : String := (s.splitOn "__").getLastD ""

/-- The station/tag enumeration of `process` (lines 1041-1060): a station
is included only if its group has a `"StationXML"` child; every other
waveform name contributes its final tag component to a set (a Python
`set`, modelled as a deduplicated list), and a tag is kept only when it is
a key of the tag map. -/
def station_tags (g : WaveformGroup) (tagMapKeys : List String) :
    List (String × String) :=
  (get_station_list g).bind (fun station =>
    match g.stations.lookup station with
    | none => []
    | some ks =>
      if "StationXML" ∈ ks then
        ((((ks.filter (fun k => k ≠ "StationXML")).map
          lastTagComponent).dedup).filter
            (fun t => t ∈ tagMapKeys)).map (fun t => (station, t))
      else [])

/-- The pre-checks of `process` (lines 1032-1063), all executed before any
work starts (the output-store creation and the scheduler dispatch begin at
line 1066): fail if the output path exists; else enumerate the station/tag
pairs and fail if none match the tag map. -/
def processPrecheck (outputExists : Bool) (g : WaveformGroup)
    (tagMapKeys : List String) : Except String (List (String × String)) :=
  if outputExists then Except.error "Output file already exists."
  else
    let st := station_tags g tagMapKeys
    if st.isEmpty then Except.error "No data matching the tag map found."
    else Except.ok st

/-- C8: `process` raises before any work starts exactly when the output
path already exists or the enumerated job list is empty; and a pair
`(s, t)` is enumerated exactly when station `s` has a `StationXML` entry
and `t`, the final `__`-component of one of its other waveform names, is a
key of the tag map. -/
theorem process_precheck_spec (outputExists : Bool) (g : WaveformGroup)
    (tagMapKeys : List String) :
    ((∃ e, processPrecheck outputExists g tagMapKeys = Except.error e)
      ↔ (outputExists = true ∨ station_tags g tagMapKeys = []))
    ∧ (∀ s t, (s, t) ∈ station_tags g tagMapKeys
      ↔ ∃ ks, g.stations.lookup s = some ks ∧ "StationXML" ∈ ks
          ∧ t ∈ tagMapKeys
          ∧ ∃ w ∈ ks, w ≠ "StationXML" ∧ lastTagComponent w = t) := by
  constructor
  · cases outputExists with
    | true => simp [processPrecheck]
    | false =>
      simp only [processPrecheck, Bool.false_eq_true, if_false, false_or]
      by_cases hst : (station_tags g tagMapKeys).isEmpty
      · constructor
        · intro
          exact List.isEmpty_iff.mp hst
        · intro
          exact ⟨"No data matching the tag map found.", by rw [if_pos hst]⟩
      · constructor
        · rintro ⟨e, he⟩
          rw [if_neg hst] at he
          exact absurd he (by simp)
        · intro h
          exact absurd (List.isEmpty_iff.mpr h) hst
  · intro s t
    rw [station_tags, List.mem_bind]
    constructor
    · rintro ⟨station, -, hmem⟩
      split at hmem
      · simp at hmem
      · rename_i ks hl
        split at hmem
        · rename_i hsx
          rw [List.mem_map] at hmem
          obtain ⟨t', ht', heq⟩ := hmem
          injection heq with h1 h2
          subst h1
          subst h2
          rw [List.mem_filter] at ht'
          obtain ⟨hdedup, hkeys⟩ := ht'
          rw [List.mem_dedup, List.mem_map] at hdedup
          obtain ⟨w, hw, hwt⟩ := hdedup
          rw [List.mem_filter] at hw
          exact ⟨ks, hl, hsx, of_decide_eq_true hkeys, w, hw.1,
            of_decide_eq_true hw.2, hwt⟩
        · simp at hmem
    · rintro ⟨ks, hl, hsx, htk, w, hw, hwne, hwt⟩
      refine ⟨s, ?_, ?_⟩
      · exact ((g.stations.map Prod.fst).mergeSort_perm _).mem_iff.mpr
          (lookup_some_mem_fst hl)
      · simp only [hl, if_pos hsx, List.mem_map]
        refine ⟨t, List.mem_filter.mpr ⟨?_, by simpa using htk⟩, rfl⟩
        rw [List.mem_dedup, List.mem_map]
        exact ⟨w, List.mem_filter.mpr ⟨hw, by simpa using hwne⟩, hwt⟩

/-! ## C9: seeding of the multiprocessing backend
(`asdf_data_set.py`, `_dispatch_processing_multiprocessing`,
lines 1326-1427) -/

/-- An element of the shared input queue: either a `(station, tag)` job or
the `POISON_PILL` sentinel (modelled, as §9 of the specification suggests,
as a tagged union). -/
inductive QueueItem (α : Type) where
  | job (a : α)
  | pill
deriving DecidableEq

/-- The queue-seeding loop (lines 1347-1358): with
`cpu_count = min(multiprocessing.cpu_count(), len(station_tags))`, every
station tag is `put` on the queue in order, then one `POISON_PILL` per
worker. -/
def seedInputQueue {α : Type} (hwThreads : Nat) (station_tags : List α) :
    List (QueueItem α) :=
  let cpu_count := min hwThreads station_tags.length
  let q := station_tags.foldl (fun q i => q ++ [QueueItem.job i]) []
  (List.range cpu_count).foldl (fun q _ => q ++ [QueueItem.pill]) q

/-- The process-creation loop (lines 1408-1414): one `Process` appended per
`range(cpu_count)` iteration; a created process is represented by its
index. -/
def spawnedProcesses {α : Type} (hwThreads : Nat) (station_tags : List α) :
    List Nat :=
  let cpu_count := min hwThreads station_tags.length
  (List.range cpu_count).foldl (fun ps i => ps ++ [i]) []

theorem foldl_append_singleton {α β : Type} (f : α → β) (l : List α)
    (acc : List β) :
    l.foldl (fun q i => q ++ [f i]) acc = acc ++ l.map f := by
  induction l generalizing acc with
  | nil => simp
  | cons x xs ih => simp [ih]

theorem foldl_append_const {α β : Type} (c : β) (l : List α) (acc : List β) :
    l.foldl (fun q _ => q ++ [c]) acc = acc ++ List.replicate l.length c := by
  induction l generalizing acc with
  | nil => simp
  | cons x xs ih => simp [ih, List.replicate_succ]

/-- C9: the local (no-bus) scheduler creates exactly
`min(hardware threads, job count)` worker processes, and the shared input
queue is seeded with every `(station, tag)` job in order followed by
exactly one `POISON_PILL` per worker. -/
theorem multiprocessing_dispatch_spec {α : Type} (hwThreads : Nat)
    (tags : List α) :
    (spawnedProcesses hwThreads tags).length = min hwThreads tags.length
    ∧ seedInputQueue hwThreads tags =
        tags.map QueueItem.job
          ++ List.replicate (min hwThreads tags.length) QueueItem.pill := by
  constructor
  · show ((List.range (min hwThreads tags.length)).foldl
      (fun ps i => ps ++ [i]) []).length = min hwThreads tags.length
    have h := foldl_append_singleton (fun i => i)
      (List.range (min hwThreads tags.length)) []
    simp only [List.nil_append] at h
    rw [h]
    simp
  · show (List.range (min hwThreads tags.length)).foldl
      (fun q _ => q ++ [QueueItem.pill])
      (tags.foldl (fun q i => q ++ [QueueItem.job i]) []) = _
    rw [foldl_append_const, foldl_append_singleton]
    simp

/-! ## C1: the worker's handling of a raising transform
(`asdf_data_set.py`, `_dispatch_processing_mpi_worker_node`,
lines 1268-1285) -/

/-- `self.stream_buffer[station_tag] = stream` on the `StreamBuffer`
key-value store: Python dict assignment replaces the value when the key is
present, else appends the pair. -/
def bufferInsert {κ σ : Type} [DecidableEq κ] (buf : List (κ × σ)) (key : κ)
    (v : σ) : List (κ × σ) :=
  if (buf.lookup key).isSome then
    buf.map (fun p => if p.1 = key then (key, v) else p)
  else buf ++ [(key, v)]

/-- The job-processing branch of the MPI worker loop (lines 1268-1285):
the data is read, the user transform is called inside `try/except` — an
exception is caught and printed
(`"Error during processing function. Will be skipped: ..."`) — and then,
unconditionally, whether or not the transform raised, the stream is stored
under its `(station, tag)` key in the worker's stream buffer, from which
it is later flushed to the output store.  The transform is modelled as
`σ → Except String σ`: `ok` is the (in Python, in-place) processed stream,
`error` a raised exception, after which the worker still holds the
unprocessed input stream.  Returns the printed lines and the new
buffer. -/
def workerProcessJob {σ : Type} (buffer : List ((String × String) × σ))
    (station_tag : String × String) (stream : σ)
    (process_function : σ → Except String σ) :
    List String × List ((String × String) × σ) :=
  match process_function stream with
  | Except.ok s => ([], bufferInsert buffer station_tag s)
  | Except.error e =>
    (["Error during processing function. Will be skipped: " ++ e],
      bufferInsert buffer station_tag stream)

/-- C1 (evaluation at the failing input): with an empty buffer and a
transform that raises, the MPI worker logs the failure but the
`(station, tag)` slot is nevertheless present in its stream buffer
afterwards, holding the unprocessed stream — which the next collective
phase will write to the output store.  This contradicts the claim that a
raising transform causes the job to be dropped with its slot absent.  (The
multiprocessing backend's `Process.run`, lines 1379-1406, has no
`try/except` at all: a raising transform crashes the worker process.) -/
theorem transform_raises_still_buffered :
    (workerProcessJob ([] : List ((String × String) × Nat))
        ("BW.RJOB", "raw") 0 (fun _ => Except.error "boom")).1 =
      ["Error during processing function. Will be skipped: boom"]
    ∧ ((workerProcessJob ([] : List ((String × String) × Nat))
        ("BW.RJOB", "raw") 0 (fun _ => Except.error "boom")).2).lookup
        ("BW.RJOB", "raw") = some 0 := by
  constructor
  · rfl
  · rfl

end Pyasdf
